import Mathlib

/-!
Verification development for the advanced chess training bot
(`chess_engine.py`).  The Python code is shallowly embedded: every
definition below mirrors one function or data structure of
`AdvancedChessEngine`; machine integers become `Int`/`Nat`, Python floats
become `Rat` (all arithmetic appearing in the embedded code is exact in
double precision at the magnitudes involved), and the ambient calls to
the `random` module become explicit parameters (`r` for a `random.random()`
draw in `[0,1)`, an index `k` with `randChoice` for a `random.choice` over a
list).
-/

namespace ChessBot

/-- Chess game phases, from the `GamePhase` enum. -/
inductive GamePhase where
  | opening
  | middlegame
  | endgame
deriving DecidableEq, Repr

/-- Piece types as distinguished by `detect_game_phase` (the python-chess
`piece_type`; colour is never read there). -/
inductive PieceType where
  | pawn
  | knight
  | bishop
  | rook
  | queen
  | king
deriving DecidableEq, Repr

/-- The slice of `chess.Board` that `detect_game_phase` reads: the piece (if
any) on each square, and the fullmove number. -/
structure Board where
  squares : List (Option PieceType)
  fullmove_number : Nat
deriving DecidableEq, Repr

/-- The material weight each piece type contributes in the loop of
`detect_game_phase` (queens 9, rooks 5, bishops/knights 3, pawns 1, kings
fall through the `elif` chain and contribute 0). -/
def pieceMaterial : PieceType → Nat
  | .queen => 9
  | .rook => 5
  | .bishop => 3
  | .knight => 3
  | .pawn => 1
  | .king => 0

/-- The accumulation loop of `detect_game_phase`: walking the squares,
summing material and counting pieces.  Returns `(total_material, piece_count)`. -/
def materialCount (b : Board) : Nat × Nat :=
  b.squares.foldl
    (fun acc sq =>
      match sq with
      | none => acc
      | some pt => (acc.1 + pieceMaterial pt, acc.2 + 1))
    (0, 0)

/-- `total_material` computed by `detect_game_phase`. -/
def totalMaterial (b : Board) : Nat := (materialCount b).1

/-- `piece_count` computed by `detect_game_phase`. -/
def pieceCount (b : Board) : Nat := (materialCount b).2

/-- Embeds `AdvancedChessEngine.detect_game_phase` (lines 139-167). -/
def detect_game_phase (b : Board) : GamePhase :=
  if b.fullmove_number ≤ 12 ∧ 60 ≤ totalMaterial b then
    GamePhase.opening
  else if totalMaterial b ≤ 20 ∨ pieceCount b ≤ 12 then
    GamePhase.endgame
  else
    GamePhase.middlegame

/-- A concrete board with fullmove number 12 and material exactly 60:
six queens, one rook, one pawn and the two kings. -/
def boardSixty : Board :=
  { squares := [some .queen, some .queen, some .queen, some .queen,
                some .queen, some .queen, some .rook, some .pawn,
                some .king, some .king, none, none],
    fullmove_number := 12 }

/-- `boardSixty` with the pawn removed: material 59 at the same move number. -/
def boardFiftyNine : Board :=
  { squares := [some .queen, some .queen, some .queen, some .queen,
                some .queen, some .queen, some .rook, none,
                some .king, some .king, none, none],
    fullmove_number := 12 }

/-- A move, abstracted to its UCI string (the embedding never inspects it). -/
abbrev Move := String

/-- A `chess.engine.PovScore` as the engine code reads it: always through
`.white()`, so we record the white-perspective value, either a centipawn
integer or a mate-in-N integer. -/
inductive EngScore where
  | cp (v : Int)
  | mate (n : Int)
deriving DecidableEq, Repr

/-- The value of `score.white().score()`: the numeric centipawn value,
`none` for a mate score (python-chess returns `None` there). -/
def whiteScore : EngScore → Option Int
  | .cp v => some v
  | .mate _ => none

/-- The `MoveAnalysis` dataclass (lines 30-43), with its field defaults:
`accuracy = 0.0`, all three quality flags `False`. -/
structure MoveAnalysis where
  move : Move
  score : EngScore
  depth : Nat
  nodes : Nat
  timeUsed : Rat
  pv : List Move
  rank : Nat
  accuracy : Rat := 0
  blunder : Bool := false
  mistake : Bool := false
  inaccuracy : Bool := false
deriving DecidableEq, Repr

/-- The body of the `for analysis in move_analyses` loop of
`_classify_moves` (lines 550-564) applied to one candidate: when the
candidate's score is numeric, compute `cp_loss = best_cp - move_cp`, set
`accuracy = max(0, 100 - abs(cp_loss) / 10)` and run the `if/elif`
classification cascade; a mate-scored candidate is left untouched. -/
def classifyOne (best_cp : Int) (a : MoveAnalysis) : MoveAnalysis :=
  match whiteScore a.score with
  | none => a
  | some move_cp =>
    let cp_loss : Int := best_cp - move_cp
    let acc : Rat := max 0 (100 - |(cp_loss : Rat)| / 10)
    if 300 ≤ cp_loss then
      { a with accuracy := acc, blunder := true }
    else if 150 ≤ cp_loss then
      { a with accuracy := acc, mistake := true }
    else if 50 ≤ cp_loss then
      { a with accuracy := acc, inaccuracy := true }
    else
      { a with accuracy := acc }

/-- Embeds `AdvancedChessEngine._classify_moves` (lines 542-567, written
without the leading underscore).  The Python method mutates the list in
place; the embedding returns the updated list.
`best_score` is `Option`al because the caller can pass `None` (the guard
`if not move_analyses or not best_score: return`); when the best score is a
mate score, `best_cp` falls back to `0`. -/
def classify_moves (move_analyses : List MoveAnalysis)
    (best_score : Option EngScore) : List MoveAnalysis :=
  match best_score with
  | none => move_analyses
  | some bs =>
    if move_analyses = [] then move_analyses
    else
      let best_cp : Int := (whiteScore bs).getD 0
      move_analyses.map (classifyOne best_cp)

/-- Exactly one of the four quality labels {blunder, mistake, inaccuracy,
none} holds: at most one of the three stored flags is set. -/
def exactlyOneLabel (a : MoveAnalysis) : Prop :=
  (a.blunder = true ∧ a.mistake = false ∧ a.inaccuracy = false) ∨
  (a.blunder = false ∧ a.mistake = true ∧ a.inaccuracy = false) ∨
  (a.blunder = false ∧ a.mistake = false ∧ a.inaccuracy = true) ∨
  (a.blunder = false ∧ a.mistake = false ∧ a.inaccuracy = false)

/-- Embeds `random.choice(l)`: the draw is made explicit as an index `k`
(a seeded `random.Random` yields a definite index; `k % l.length` keeps any
index in range).  Returns `none` exactly when the list is empty. -/
def randChoice (k : Nat) (l : List α) : Option α :=
  l.get? (k % l.length)

/-- The excellent bucket of `_advanced_move_selection`: accuracy ≥ 95. -/
def excellentMoves (l : List MoveAnalysis) : List MoveAnalysis :=
  l.filter (fun m => decide (95 ≤ m.accuracy))

/-- The good bucket: accuracy in [80, 95). -/
def goodMoves (l : List MoveAnalysis) : List MoveAnalysis :=
  l.filter (fun m => decide (80 ≤ m.accuracy ∧ m.accuracy < 95))

/-- The okay bucket: accuracy in [60, 80). -/
def okayMoves (l : List MoveAnalysis) : List MoveAnalysis :=
  l.filter (fun m => decide (60 ≤ m.accuracy ∧ m.accuracy < 80))

/-- The poor bucket: accuracy < 60. -/
def poorMoves (l : List MoveAnalysis) : List MoveAnalysis :=
  l.filter (fun m => decide (m.accuracy < 60))

/-- Embeds `AdvancedChessEngine._advanced_move_selection` (lines 569-620,
without the leading underscore).  The source reads the personality traits
aggression / positional_play / tactical_awareness into local variables it
never uses afterwards, so the `_traits` parameter is carried but unread.
The two uses of the ambient RNG become the parameters `r` (the single
`random.random()` draw) and `k` (the index behind whichever `random.choice`
call executes).  Returns `none` exactly on the empty candidate list. -/
def advanced_move_selection (move_analyses : List MoveAnalysis) (elo : Int)
    (board : Board) (_traits : List (String × Rat)) (r : Rat) (k : Nat) :
    Option Move :=
  match move_analyses with
  | [] => none
  | top :: _ =>
    let game_phase := detect_game_phase board
    let strength_factor : Rat := max 0 (min 1 (((elo : Rat) - 800) / (2500 - 800)))
    let mistake_probability : Rat :=
      if game_phase = GamePhase.opening then 1/10 * (1 - strength_factor)
      else if game_phase = GamePhase.middlegame then 2/10 * (1 - strength_factor)
      else 15/100 * (1 - strength_factor)
    let excellent_moves := excellentMoves move_analyses
    let good_moves := goodMoves move_analyses
    let okay_moves := okayMoves move_analyses
    let poor_moves := poorMoves move_analyses
    let picked : Option MoveAnalysis :=
      if mistake_probability < r then
        if excellent_moves ≠ [] ∧ 3/10 < r then randChoice k excellent_moves
        else if good_moves ≠ [] then randChoice k good_moves
        else if okay_moves ≠ [] then randChoice k okay_moves
        else none
      else
        if okay_moves ≠ [] ∧ mistake_probability / 2 < r then randChoice k okay_moves
        else if poor_moves ≠ [] then randChoice k poor_moves
        else none
    match picked with
    | some m => some m.move
    | none => some top.move

/-- Clamp to an interval, as the specification writes it. -/
def clampQ (lo hi x : Rat) : Rat := max lo (min hi x)

/-- Base mistake probability by phase as the specification states it:
OPENING 0.10, MIDDLEGAME 0.20, ENDGAME 0.15. -/
def selectorSpecBase : GamePhase → Rat
  | .opening => 10/100
  | .middlegame => 20/100
  | .endgame => 15/100

/-- Transcription of the Move Selector policy exactly as the claim states
it (clamped strength, phase base probability, four accuracy buckets, the
two branches on the draw `r`, rank-1 fallback), written independently of
the source embedding so the two can be compared. -/
def selectorSpec (cands : List MoveAnalysis) (elo : Int) (phase : GamePhase)
    (r : Rat) (k : Nat) : Option Move :=
  match cands with
  | [] => none
  | top :: _ =>
    let strength := clampQ 0 1 (((elo : Rat) - 800) / 1700)
    let mistakeProb := selectorSpecBase phase * (1 - strength)
    let excellent := cands.filter (fun m => decide (95 ≤ m.accuracy))
    let good := cands.filter (fun m => decide (80 ≤ m.accuracy ∧ m.accuracy < 95))
    let okay := cands.filter (fun m => decide (60 ≤ m.accuracy ∧ m.accuracy < 80))
    let poor := cands.filter (fun m => decide (m.accuracy < 60))
    let chosen : Option MoveAnalysis :=
      if r > mistakeProb then
        if excellent ≠ [] ∧ r > 3/10 then randChoice k excellent
        else if good ≠ [] then randChoice k good
        else if okay ≠ [] then randChoice k okay
        else none
      else
        if okay ≠ [] ∧ r > mistakeProb / 2 then randChoice k okay
        else if poor ≠ [] then randChoice k poor
        else none
    match chosen with
    | some m => some m.move
    | none => some top.move

/-- An opening book entry: a move and its integer weight. -/
structure OpeningEntry where
  move : Move
  weight : Nat
deriving DecidableEq, Repr

/-- Stable insertion for a descending sort by weight: an element is placed
before the first strictly lighter one, so equal weights keep their original
order — the semantics of Python's stable `sorted(key=weight, reverse=True)`. -/
def insertWeightDesc (e : OpeningEntry) : List OpeningEntry → List OpeningEntry
  | [] => [e]
  | f :: fs => if f.weight ≤ e.weight then e :: f :: fs else f :: insertWeightDesc e fs

/-- Embeds `sorted(book_moves, key=lambda x: x[1], reverse=True)`. -/
def sortWeightDesc (l : List OpeningEntry) : List OpeningEntry :=
  l.foldr insertWeightDesc []

/-- Embeds the book-move selection of `analyze_position_advanced` (lines
425-433): with entries present, ELO ≥ 2000 picks `random.choice` over the
top three entries by weight, lower ELO picks over all entries.  Returns
`none` when no entry was found (the code then falls through to engine
analysis). -/
def bookMoveSelection (book_moves : List OpeningEntry) (elo : Int) (k : Nat) :
    Option Move :=
  match book_moves with
  | [] => none
  | _ :: _ =>
    if 2000 ≤ elo then
      (randChoice k ((sortWeightDesc book_moves).take 3)).map OpeningEntry.move
    else
      (randChoice k book_moves).map OpeningEntry.move

/-- One entry of the engine's `analyse` result: the slice of the info
dictionary the code reads (`pv`, `score` with its `Cp(0)` default, `depth`,
`nodes`, `time`). -/
structure Info where
  pv : List Move
  score : Option EngScore
  depth : Nat
  nodes : Nat
  timeUsed : Rat
deriving DecidableEq, Repr

/-- One iteration of the `for i, info in enumerate(analysis)` loop of
`analyze_position_advanced` (lines 470-493): entries with a non-empty
principal variation become a `MoveAnalysis` with rank `i + 1`; the index-0
entry also sets `best_move` and `best_eval`. -/
def buildStep (acc : List MoveAnalysis × Option Move × Option EngScore)
    (p : Nat × Info) : List MoveAnalysis × Option Move × Option EngScore :=
  match p.2.pv with
  | [] => acc
  | mv :: _ =>
    let sc := p.2.score.getD (EngScore.cp 0)
    let ma : MoveAnalysis :=
      { move := mv, score := sc, depth := p.2.depth, nodes := p.2.nodes,
        timeUsed := p.2.timeUsed, pv := p.2.pv, rank := p.1 + 1 }
    (acc.1 ++ [ma],
     if p.1 = 0 then some mv else acc.2.1,
     if p.1 = 0 then some sc else acc.2.2)

/-- The whole candidate-extraction loop: returns
`(move_analyses, best_move, best_eval)`. -/
def buildMoveAnalyses (analysis : List Info) :
    List MoveAnalysis × Option Move × Option EngScore :=
  analysis.enum.foldl buildStep ([], none, none)

/-- The slice of the result dictionary of `analyze_position_advanced` that
the claims inspect. -/
structure AnalysisOutcome where
  suggested : Option Move
  best : Option Move
  message : String
  source : Option String
deriving DecidableEq, Repr

/-- Embeds the engine-analysis path of `analyze_position_advanced` (lines
446-530, after the opening-book branch): an empty `analyse` result returns
no move with message "No analysis available"; a non-empty result from which
no candidate can be extracted (no entry has a principal variation) falls
back to `random.choice` over the legal moves; otherwise the candidates are
classified and the selector picks the suggested move.  The source appends
the ELO to the final message; the constant prefix is kept here.  `kf` is
the index behind the fallback `random.choice`. -/
def analyze_engine_path (analysis : List Info) (legalMoves : List Move)
    (elo : Int) (board : Board) (traits : List (String × Rat)) (r : Rat)
    (k kf : Nat) : AnalysisOutcome :=
  match analysis with
  | [] =>
    { suggested := none, best := none,
      message := "No analysis available", source := none }
  | _ :: _ =>
    let built := buildMoveAnalyses analysis
    if built.1 = [] ∧ legalMoves ≠ [] then
      { suggested := randChoice kf legalMoves,
        best := randChoice kf legalMoves,
        message := "Fallback to random move", source := none }
    else
      let classified := classify_moves built.1 built.2.2
      { suggested := advanced_move_selection classified elo board traits r k,
        best := built.2.1,
        message := "Advanced analysis complete", source := some "engine_analysis" }

/-- The state `make_move` touches: the internal board (modelled by its
stack of pushed moves), the move history, and a counter of Engine Gateway
requests.  The method reads neither `self.engine` nor the book, so any
embedding of an engine call would increment `engineRequests`; `make_move`
must leave it unchanged. -/
structure EngineSession where
  board : List Move
  move_history : List Move
  engineRequests : Nat
deriving DecidableEq, Repr

/-- Embeds `AdvancedChessEngine.make_move` (lines 695-707).  Legal-move
generation is python-chess, a black box here: it enters as the oracle
`legal`, a function of the current move stack. -/
def make_move (legal : List Move → List Move) (s : EngineSession)
    (move : Move) : Bool × EngineSession :=
  if move ∈ legal s.board then
    (true, { s with board := s.board ++ [move],
                    move_history := s.move_history ++ [move] })
  else
    (false, s)

/-- The initial `personality_traits` dict (lines 71-77): five traits at 0.5. -/
def initialPersonality : List (String × Rat) :=
  [("aggression", 1/2), ("positional_play", 1/2), ("tactical_awareness", 1/2),
   ("endgame_skill", 1/2), ("opening_knowledge", 1/2)]

/-- The body of the loop of `set_personality` for one `(trait, value)` item:
a key already present in the profile is overwritten with the value clamped
to [0,1]; any other key is skipped. -/
def setTraitStep (p : List (String × Rat)) (tv : String × Rat) :
    List (String × Rat) :=
  if (p.lookup tv.1).isSome then
    p.map (fun kw => if kw.1 = tv.1 then (kw.1, max 0 (min 1 tv.2)) else kw)
  else p

/-- Embeds `AdvancedChessEngine.set_personality` (lines 651-655); the
profile dict becomes an association list with unique keys. -/
def set_personality (profile : List (String × Rat))
    (traits : List (String × Rat)) : List (String × Rat) :=
  traits.foldl setTraitStep profile

/-- A concrete middlegame-ish candidate used by the witnesses. -/
def exA : MoveAnalysis :=
  { move := "e2e4", score := .cp (-100), depth := 10, nodes := 1000,
    timeUsed := 1, pv := ["e2e4"], rank := 2 }

/-- Concrete candidate with score +200 cp (loss -200 against best 0). -/
def cexA : MoveAnalysis :=
  { move := "d2d4", score := .cp 200, depth := 10, nodes := 1000,
    timeUsed := 1, pv := ["d2d4"], rank := 2 }

/-- Concrete candidate with score 0 cp (loss 0 against best 0). -/
def cexB : MoveAnalysis :=
  { move := "g1f3", score := .cp 0, depth := 10, nodes := 1000,
    timeUsed := 1, pv := ["g1f3"], rank := 1 }

/-- Concrete book entries with weights 10, 5, 1. -/
def bookE1 : OpeningEntry := { move := "e2e4", weight := 10 }

/-- Weight-5 entry. -/
def bookE2 : OpeningEntry := { move := "d2d4", weight := 5 }

/-- Weight-1 entry. -/
def bookE3 : OpeningEntry := { move := "g1h3", weight := 1 }

/-- A trivial concrete board (empty square list, fullmove 1). -/
def board0 : Board := { squares := [], fullmove_number := 1 }

/-- A concrete analysis entry whose score is mate-in-2. -/
def infoMate : Info :=
  { pv := ["e7e8"], score := some (.mate 2), depth := 12, nodes := 500,
    timeUsed := 1 }

/-- The candidate `buildMoveAnalyses [infoMate]` constructs. -/
def maMate : MoveAnalysis :=
  { move := "e7e8", score := .mate 2, depth := 12, nodes := 500,
    timeUsed := 1, pv := ["e7e8"], rank := 1 }

/-- A concrete analysis entry with an empty principal variation. -/
def infoNoPv : Info :=
  { pv := [], score := some (.cp 30), depth := 5, nodes := 100, timeUsed := 1 }

/-- A concrete legality oracle for the `make_move` witness. -/
def legal0 : List Move → List Move := fun _ => ["e2e4", "d2d4"]

/-- A fresh session for the `make_move` witness. -/
def session0 : EngineSession := { board := [], move_history := [], engineRequests := 0 }

end ChessBot

namespace ChessBot

/-- C3: `detect_game_phase` returns OPENING iff the fullmove number is ≤ 12
and the material sum is ≥ 60; otherwise ENDGAME iff material ≤ 20 or piece
count ≤ 12; otherwise MIDDLEGAME.  Moreover fullmove number 12 with material
exactly 60 classifies as OPENING, and material 59 at the same move number
does not. -/
theorem detect_game_phase_spec (b : Board) :
    (detect_game_phase b = GamePhase.opening ↔
      (b.fullmove_number ≤ 12 ∧ 60 ≤ totalMaterial b)) ∧
    (detect_game_phase b = GamePhase.endgame ↔
      (¬(b.fullmove_number ≤ 12 ∧ 60 ≤ totalMaterial b) ∧
        (totalMaterial b ≤ 20 ∨ pieceCount b ≤ 12))) ∧
    (detect_game_phase b = GamePhase.middlegame ↔
      (¬(b.fullmove_number ≤ 12 ∧ 60 ≤ totalMaterial b) ∧
        ¬(totalMaterial b ≤ 20 ∨ pieceCount b ≤ 12))) ∧
    (boardSixty.fullmove_number = 12 ∧ totalMaterial boardSixty = 60 ∧
      detect_game_phase boardSixty = GamePhase.opening) ∧
    (boardFiftyNine.fullmove_number = 12 ∧ totalMaterial boardFiftyNine = 59 ∧
      detect_game_phase boardFiftyNine ≠ GamePhase.opening) := by
  refine ⟨?_, ?_, ?_, by decide, by decide⟩ <;>
    unfold detect_game_phase <;> split_ifs with h1 h2 <;> simp_all

/-- The accuracy formula is always within `[0, 100]`. -/
lemma accFormula_bounds (x : Rat) :
    0 ≤ max 0 (100 - |x| / 10) ∧ max 0 (100 - |x| / 10) ≤ 100 := by
  constructor
  · exact le_max_left 0 _
  · refine max_le (by norm_num) ?_
    have h : (0 : Rat) ≤ |x| / 10 := by positivity
    linarith

/-- On a numeric-scored candidate, `classifyOne` always stores the accuracy
formula, whatever classification branch is taken. -/
lemma classifyOne_accuracy (best_cp : Int) (a : MoveAnalysis) (move_cp : Int)
    (hm : whiteScore a.score = some move_cp) :
    (classifyOne best_cp a).accuracy
      = max 0 (100 - |((best_cp - move_cp : Int) : Rat)| / 10) := by
  simp only [classifyOne, hm]
  split_ifs <;> rfl

/-- On a numeric-scored candidate, the three flags follow the `if/elif`
cascade of `_classify_moves`. -/
lemma classifyOne_flags (best_cp : Int) (a : MoveAnalysis) (move_cp : Int)
    (hm : whiteScore a.score = some move_cp)
    (hb : a.blunder = false) (hk : a.mistake = false) (hi : a.inaccuracy = false) :
    ((classifyOne best_cp a).blunder = true ↔ 300 ≤ best_cp - move_cp) ∧
    ((classifyOne best_cp a).mistake = true ↔
      (150 ≤ best_cp - move_cp ∧ best_cp - move_cp < 300)) ∧
    ((classifyOne best_cp a).inaccuracy = true ↔
      (50 ≤ best_cp - move_cp ∧ best_cp - move_cp < 150)) := by
  simp only [classifyOne, hm]
  split_ifs with h1 h2 h3 <;> simp_all <;> omega

/-- C1: for a non-empty candidate list whose best score is a numeric
centipawn value `best_cp`, `_classify_moves` maps `classifyOne best_cp` over
the list, and each numeric-scored candidate receives loss
`best_cp - move_cp`, accuracy `max 0 (100 - |loss| / 10)` lying in `[0,100]`,
and exactly one quality label, chosen blunder-first by the thresholds
300 / 150 / 50. -/
theorem classify_moves_spec (l : List MoveAnalysis) (bs : EngScore)
    (best_cp : Int) (a : MoveAnalysis) (move_cp : Int)
    (hl : l ≠ []) (hbs : whiteScore bs = some best_cp)
    (ha : a ∈ l) (hm : whiteScore a.score = some move_cp)
    (hb : a.blunder = false) (hk : a.mistake = false) (hi : a.inaccuracy = false) :
    classify_moves l (some bs) = l.map (classifyOne best_cp) ∧
    (classifyOne best_cp a).accuracy
      = max 0 (100 - |((best_cp - move_cp : Int) : Rat)| / 10) ∧
    0 ≤ (classifyOne best_cp a).accuracy ∧
    (classifyOne best_cp a).accuracy ≤ 100 ∧
    ((classifyOne best_cp a).blunder = true ↔ 300 ≤ best_cp - move_cp) ∧
    ((classifyOne best_cp a).mistake = true ↔
      (150 ≤ best_cp - move_cp ∧ best_cp - move_cp < 300)) ∧
    ((classifyOne best_cp a).inaccuracy = true ↔
      (50 ≤ best_cp - move_cp ∧ best_cp - move_cp < 150)) ∧
    exactlyOneLabel (classifyOne best_cp a) := by
  have hmap : classify_moves l (some bs) = l.map (classifyOne best_cp) := by
    simp [classify_moves, hl, hbs]
  have hacc := classifyOne_accuracy best_cp a move_cp hm
  have hbounds := accFormula_bounds ((best_cp - move_cp : Int) : Rat)
  have hflags := classifyOne_flags best_cp a move_cp hm hb hk hi
  refine ⟨hmap, hacc, by rw [hacc]; exact hbounds.1, by rw [hacc]; exact hbounds.2,
    hflags.1, hflags.2.1, hflags.2.2, ?_⟩
  simp only [classifyOne, hm]
  split_ifs <;> simp [exactlyOneLabel, hb, hk, hi]

/-- Witness for C1 at a concrete input: candidate at −100 cp against a best
of +100 cp has loss 200, accuracy 80, and is labelled a mistake. -/
theorem classify_moves_spec_witness :
    (classifyOne 100 exA).mistake = true ∧ (classifyOne 100 exA).accuracy = 80 :=
  have h := classify_moves_spec [exA] (EngScore.cp 100) 100 exA (-100)
    (by simp) rfl (by simp) rfl rfl rfl rfl
  ⟨h.2.2.2.2.2.1.mpr (by norm_num), by rw [h.2.1]; norm_num⟩

/-- C6 counterexample: candidate A at +200 cp against best 0 has signed
loss −200 ≤ 0 (B's loss), yet A's accuracy 80 is strictly below B's 100 —
accuracy is not monotone in the signed centipawn loss. -/
theorem accuracy_monotone_cex :
    ((0 : Int) - 200 ≤ (0 : Int) - 0) ∧
    (classifyOne 0 cexA).accuracy < (classifyOne 0 cexB).accuracy := by
  refine ⟨by norm_num, ?_⟩
  rw [classifyOne_accuracy 0 cexA 200 rfl, classifyOne_accuracy 0 cexB 0 rfl]
  norm_num

/-- C6 amended: accuracy is monotonically non-increasing in the absolute
centipawn loss — for two numeric-scored candidates of the same analysis,
the one with the smaller |best_cp − move_cp| gets the (weakly) larger
accuracy. -/
theorem accuracy_monotone_abs (best_cp ca cb : Int) (a b : MoveAnalysis)
    (hma : whiteScore a.score = some ca) (hmb : whiteScore b.score = some cb)
    (h : |best_cp - ca| ≤ |best_cp - cb|) :
    (classifyOne best_cp b).accuracy ≤ (classifyOne best_cp a).accuracy := by
  rw [classifyOne_accuracy best_cp a ca hma, classifyOne_accuracy best_cp b cb hmb]
  have h2 : |((best_cp - ca : Int) : Rat)| ≤ |((best_cp - cb : Int) : Rat)| := by
    rw [← Int.cast_abs, ← Int.cast_abs]
    exact_mod_cast h
  have h3 : (100 : Rat) - |((best_cp - cb : Int) : Rat)| / 10
      ≤ 100 - |((best_cp - ca : Int) : Rat)| / 10 := by linarith
  exact max_le_max le_rfl h3

/-- Witness for the amended C6 at a concrete input: |0 − 0| ≤ |0 − 200|,
so the +200 cp candidate's accuracy is at most the 0 cp candidate's. -/
theorem accuracy_monotone_abs_witness :
    (classifyOne 0 cexA).accuracy ≤ (classifyOne 0 cexB).accuracy :=
  accuracy_monotone_abs 0 0 200 cexB cexA rfl rfl (by norm_num)

/-- Every candidate produced by the extraction loop carries the dataclass
defaults: accuracy 0 and all three quality flags false. -/
lemma buildFold_defaults (l : List (Nat × Info))
    (acc : List MoveAnalysis × Option Move × Option EngScore)
    (hacc : ∀ x ∈ acc.1, x.accuracy = 0 ∧ x.blunder = false ∧
      x.mistake = false ∧ x.inaccuracy = false) :
    ∀ x ∈ (l.foldl buildStep acc).1, x.accuracy = 0 ∧ x.blunder = false ∧
      x.mistake = false ∧ x.inaccuracy = false := by
  induction l generalizing acc with
  | nil => exact hacc
  | cons p l ih =>
    refine ih (buildStep acc p) ?_
    intro x hx
    unfold buildStep at hx
    rcases hpv : p.2.pv with _ | ⟨mv, rest⟩
    · rw [hpv] at hx
      exact hacc x hx
    · rw [hpv] at hx
      rcases List.mem_append.mp hx with hmem | hmem
      · exact hacc x hmem
      · rcases List.mem_singleton.mp hmem with rfl
        exact ⟨rfl, rfl, rfl, rfl⟩

/-- Same statement specialised to `buildMoveAnalyses`. -/
lemma buildMoveAnalyses_defaults (analysis : List Info) :
    ∀ x ∈ (buildMoveAnalyses analysis).1, x.accuracy = 0 ∧ x.blunder = false ∧
      x.mistake = false ∧ x.inaccuracy = false :=
  buildFold_defaults analysis.enum ([], none, none) (by intro x hx; cases hx)

/-- C10: a candidate whose engine score is a mate score is left untouched
by the classifier — accuracy stays at the default 0 and the three quality
flags stay false — and therefore lands in the selector's poor bucket
(accuracy < 60) and in no other bucket, whatever its rank (including rank
1, the best move). -/
theorem mate_score_poor_bucket (analysis : List Info) (best_cp : Int)
    (a : MoveAnalysis) (ha : a ∈ (buildMoveAnalyses analysis).1)
    (hm : whiteScore a.score = none) :
    classifyOne best_cp a = a ∧
    a.accuracy = 0 ∧ a.blunder = false ∧ a.mistake = false ∧
    a.inaccuracy = false ∧
    ∀ l : List MoveAnalysis, a ∈ l →
      (a ∈ poorMoves l ∧ a ∉ excellentMoves l ∧ a ∉ goodMoves l ∧
        a ∉ okayMoves l) := by
  have hdef := buildMoveAnalyses_defaults analysis a ha
  refine ⟨by simp [classifyOne, hm], hdef.1, hdef.2.1, hdef.2.2.1, hdef.2.2.2, ?_⟩
  intro l hl
  refine ⟨?_, ?_, ?_, ?_⟩ <;>
    simp [poorMoves, excellentMoves, goodMoves, okayMoves, List.mem_filter,
      hl, hdef.1]

/-- Witness for C10 at a concrete input: the mate-in-2 candidate built from
`infoMate` keeps accuracy 0, is untouched by the classifier, and sits in
the poor bucket only. -/
theorem mate_score_poor_bucket_witness :
    classifyOne 0 maMate = maMate ∧ maMate.accuracy = 0 ∧
    maMate ∈ poorMoves [maMate] ∧ maMate ∉ excellentMoves [maMate] :=
  have h := mate_score_poor_bucket [infoMate] 0 maMate (by decide) rfl
  have hb := h.2.2.2.2.2 [maMate] (by simp)
  ⟨h.1, h.2.1, hb.1, hb.2.1⟩

/-- The strength factor of the source equals the clamp the claim states. -/
lemma strength_eq (elo : Int) :
    max 0 (min 1 (((elo : Rat) - 800) / (2500 - 800)))
      = clampQ 0 1 (((elo : Rat) - 800) / 1700) := by
  unfold clampQ
  norm_num

/-- The phase dispatch of the source equals the claim's base probability
table times `(1 - strength)`. -/
lemma base_eq (ph : GamePhase) (s : Rat) :
    (if ph = GamePhase.opening then 1/10 * (1 - s)
     else if ph = GamePhase.middlegame then 2/10 * (1 - s)
     else 15/100 * (1 - s)) = selectorSpecBase ph * (1 - s) := by
  cases ph <;> simp [selectorSpecBase] <;> exact Or.inl (by norm_num)

/-- Folding lemma for the excellent bucket. -/
lemma excellentMoves_eq (l : List MoveAnalysis) :
    l.filter (fun m => decide (95 ≤ m.accuracy)) = excellentMoves l := rfl

/-- Folding lemma for the good bucket. -/
lemma goodMoves_eq (l : List MoveAnalysis) :
    l.filter (fun m => decide (80 ≤ m.accuracy ∧ m.accuracy < 95)) = goodMoves l := rfl

/-- Folding lemma for the okay bucket. -/
lemma okayMoves_eq (l : List MoveAnalysis) :
    l.filter (fun m => decide (60 ≤ m.accuracy ∧ m.accuracy < 80)) = okayMoves l := rfl

/-- Folding lemma for the poor bucket. -/
lemma poorMoves_eq (l : List MoveAnalysis) :
    l.filter (fun m => decide (m.accuracy < 60)) = poorMoves l := rfl

/-- C2: the embedded `_advanced_move_selection` agrees, for every draw
`r ∈ [0,1)`, with the transcription of the claim's policy (strength
clamp((e−800)/1700, 0, 1), base 0.10/0.20/0.15 by phase, accuracy buckets
≥95 / [80,95) / [60,80) / <60, the two branch cascades, rank-1 fallback),
evaluated at the game phase the code derives from the board. -/
theorem advanced_move_selection_spec (l : List MoveAnalysis) (elo : Int)
    (board : Board) (traits : List (String × Rat)) (r : Rat) (k : Nat)
    (hr0 : 0 ≤ r) (hr1 : r < 1) :
    advanced_move_selection l elo board traits r k
      = selectorSpec l elo (detect_game_phase board) r k := by
  cases l with
  | nil => rfl
  | cons top rest =>
    simp only [advanced_move_selection, selectorSpec, strength_eq, base_eq,
      excellentMoves_eq, goodMoves_eq, okayMoves_eq, poorMoves_eq, gt_iff_lt]

/-- Witness for C2 at a concrete input. -/
theorem advanced_move_selection_spec_witness :
    advanced_move_selection [exA] 1500 board0 [] (1/2) 0
      = selectorSpec [exA] 1500 (detect_game_phase board0) (1/2) 0 :=
  advanced_move_selection_spec [exA] 1500 board0 [] (1/2) 0
    (by norm_num) (by norm_num)

/-- C7 (the provable half of the claim): with the RNG draws made explicit
parameters, the Move Selector is a pure function — two runs with the same
draws and identical inputs return the same move.  This is what a fixed seed
of the (actually module-global) Python RNG produces. -/
theorem advanced_move_selection_deterministic (l₁ l₂ : List MoveAnalysis)
    (elo₁ elo₂ : Int) (b₁ b₂ : Board) (t₁ t₂ : List (String × Rat))
    (r₁ r₂ : Rat) (k₁ k₂ : Nat)
    (hl : l₁ = l₂) (he : elo₁ = elo₂) (hb : b₁ = b₂) (ht : t₁ = t₂)
    (hr : r₁ = r₂) (hk : k₁ = k₂) :
    advanced_move_selection l₁ elo₁ b₁ t₁ r₁ k₁
      = advanced_move_selection l₂ elo₂ b₂ t₂ r₂ k₂ := by
  subst hl; subst he; subst hb; subst ht; subst hr; subst hk; rfl

/-- Witness for C7 at a concrete input. -/
theorem advanced_move_selection_deterministic_witness :
    advanced_move_selection [exA] 1500 board0 [] (1/2) 3
      = advanced_move_selection [exA] 1500 board0 [] (1/2) 3 :=
  advanced_move_selection_deterministic [exA] [exA] 1500 1500 board0 board0
    [] [] (1/2) (1/2) 3 3 rfl rfl rfl rfl rfl rfl

/-- A `random.choice` over a non-empty list yields a member of the list. -/
lemma randChoice_mem (k : Nat) (l : List α) (h : l ≠ []) :
    ∃ x, x ∈ l ∧ randChoice k l = some x := by
  have hlen : 0 < l.length := List.length_pos.mpr h
  have hk : k % l.length < l.length := Nat.mod_lt _ hlen
  exact ⟨l.get ⟨k % l.length, hk⟩, List.get_mem l _ _,
    by simp [randChoice, List.get?_eq_get hk]⟩

/-- Insertion keeps the length. -/
lemma insertWeightDesc_length (e : OpeningEntry) (l : List OpeningEntry) :
    (insertWeightDesc e l).length = l.length + 1 := by
  induction l with
  | nil => rfl
  | cons f fs ih =>
    unfold insertWeightDesc
    split_ifs <;> simp [ih]

/-- Sorting keeps the length. -/
lemma sortWeightDesc_length (l : List OpeningEntry) :
    (sortWeightDesc l).length = l.length := by
  induction l with
  | nil => rfl
  | cons e l ih =>
    show (insertWeightDesc e (sortWeightDesc l)).length = l.length + 1
    rw [insertWeightDesc_length, ih]

/-- The top-3 slice of the sorted entries is non-empty when the entry list
is. -/
lemma take3_ne_nil (l : List OpeningEntry) (h : l ≠ []) :
    (sortWeightDesc l).take 3 ≠ [] := by
  have h1 : 0 < l.length := List.length_pos.mpr h
  refine List.length_pos.mp ?_
  rw [List.length_take, sortWeightDesc_length]
  exact lt_min (by norm_num) h1

/-- C4 counterexample: with exactly three entries of weights [10, 5, 1] and
ELO 2100, the "3 highest-weight entries" are all three entries, and the
draw with index 2 selects the weight-1 move — contradicting "the selected
move is never the weight-1 entry, for any random draw". -/
theorem book_selection_cex :
    bookE3.weight = 1 ∧
    (sortWeightDesc [bookE1, bookE2, bookE3]).take 3 = [bookE1, bookE2, bookE3] ∧
    bookMoveSelection [bookE1, bookE2, bookE3] 2100 2 = some bookE3.move := by
  refine ⟨rfl, by decide, by decide⟩

/-- C4 amended: for ELO ≥ 2000 the selected move is always drawn from the 3
highest-weight entries (when at most three entries exist, that is all of
them, so every entry — including a weight-1 one — can be selected). -/
theorem book_selection_top3 (book_moves : List OpeningEntry) (elo : Int)
    (k : Nat) (he : 2000 ≤ elo) (hne : book_moves ≠ []) :
    bookMoveSelection book_moves elo k
      ∈ ((sortWeightDesc book_moves).take 3).map (fun e => some e.move) := by
  obtain ⟨x, hx, hc⟩ :=
    randChoice_mem k ((sortWeightDesc book_moves).take 3) (take3_ne_nil _ hne)
  cases book_moves with
  | nil => exact absurd rfl hne
  | cons b bs =>
    unfold bookMoveSelection
    rw [if_pos he, hc]
    exact List.mem_map_of_mem _ hx

/-- Witness for the amended C4 at a concrete input. -/
theorem book_selection_top3_witness :
    bookMoveSelection [bookE1, bookE2, bookE3] 2100 1
      ∈ ((sortWeightDesc [bookE1, bookE2, bookE3]).take 3).map
          (fun e => some e.move) :=
  book_selection_top3 [bookE1, bookE2, bookE3] 2100 1 (by norm_num) (by simp)

/-- C5 counterexample: a position with a legal move but an empty `analyse`
result yields no suggested move (message "No analysis available") — the
uniform legal-move fallback is not taken on this path. -/
theorem empty_analysis_cex :
    (analyze_engine_path [] ["e2e4"] 1500 board0 [] 0 0 0).suggested = none ∧
    (analyze_engine_path [] ["e2e4"] 1500 board0 [] 0 0 0).message
      = "No analysis available" ∧
    (["e2e4"] : List Move) ≠ [] :=
  ⟨rfl, rfl, by simp⟩

/-- C5 amended: when `analyse` returns an empty list the call returns (without
raising) a result with no suggested move and message "No analysis
available"; the uniform legal-move fallback instead covers the case of a
non-empty result from which no candidate can be extracted (no entry has a
principal variation), where the suggested move is a `random.choice` over
the legal moves. -/
theorem analyze_engine_path_fallback (analysis : List Info)
    (legalMoves : List Move) (elo : Int) (board : Board)
    (traits : List (String × Rat)) (r : Rat) (k kf : Nat)
    (hlm : legalMoves ≠ []) :
    (analysis = [] →
      analyze_engine_path analysis legalMoves elo board traits r k kf
        = { suggested := none, best := none,
            message := "No analysis available", source := none }) ∧
    (analysis ≠ [] → (buildMoveAnalyses analysis).1 = [] →
      ((analyze_engine_path analysis legalMoves elo board traits r k kf).suggested
          = randChoice kf legalMoves ∧
       (analyze_engine_path analysis legalMoves elo board traits r k kf).message
          = "Fallback to random move" ∧
       (randChoice kf legalMoves).isSome = true ∧
       ∀ m, randChoice kf legalMoves = some m → m ∈ legalMoves)) := by
  constructor
  · intro h
    subst h
    rfl
  · intro hne hmas
    obtain ⟨x, hx, hc⟩ := randChoice_mem kf legalMoves hlm
    cases analysis with
    | nil => exact absurd rfl hne
    | cons i is =>
      simp only [analyze_engine_path]
      rw [if_pos ⟨hmas, hlm⟩]
      refine ⟨rfl, rfl, by rw [hc]; rfl, ?_⟩
      intro m hm
      rw [hc] at hm
      cases hm
      exact hx

/-- Witness for the amended C5 at concrete inputs: one call with an empty
analysis list, one with a single PV-less entry. -/
theorem analyze_engine_path_fallback_witness :
    analyze_engine_path [] ["e2e4"] 1500 board0 [] 0 0 0
      = { suggested := none, best := none,
          message := "No analysis available", source := none } ∧
    (analyze_engine_path [infoNoPv] ["e2e4"] 1500 board0 [] 0 0 0).suggested
      = randChoice 0 ["e2e4"] :=
  ⟨(analyze_engine_path_fallback [] ["e2e4"] 1500 board0 [] 0 0 0
      (by simp)).1 rfl,
   ((analyze_engine_path_fallback [infoNoPv] ["e2e4"] 1500 board0 [] 0 0 0
      (by simp)).2 (by simp) rfl).1⟩

/-- C8: a move outside the legal-move set is rejected with `False` and the
session — board stack, move history and engine-request counter — is
unchanged; a legal move is pushed, appended to the history and accepted
with `True`; in both cases no engine request happens. -/
theorem make_move_spec (legal : List Move → List Move) (s : EngineSession)
    (move : Move) :
    (move ∉ legal s.board → make_move legal s move = (false, s)) ∧
    (move ∈ legal s.board →
      make_move legal s move
        = (true, { board := s.board ++ [move],
                   move_history := s.move_history ++ [move],
                   engineRequests := s.engineRequests })) ∧
    (make_move legal s move).2.engineRequests = s.engineRequests := by
  refine ⟨fun h => ?_, fun h => ?_, ?_⟩
  · simp [make_move, h]
  · simp [make_move, h]
  · by_cases h : move ∈ legal s.board <;> simp [make_move, h]

/-- Witness for C8 at a concrete input: "e2e4" is legal and gets pushed,
"a7a5" is illegal and leaves the session untouched. -/
theorem make_move_spec_witness :
    make_move legal0 session0 "e2e4"
      = (true, { board := ["e2e4"], move_history := ["e2e4"],
                 engineRequests := 0 }) ∧
    make_move legal0 session0 "a7a5" = (false, session0) :=
  ⟨(make_move_spec legal0 session0 "e2e4").2.1 (by decide),
   (make_move_spec legal0 session0 "a7a5").1 (by decide)⟩

/-- The clamp used by `set_personality` lands in [0,1]. -/
lemma clamp01_bounds (v : Rat) :
    0 ≤ max 0 (min 1 v) ∧ max 0 (min 1 v) ≤ 1 :=
  ⟨le_max_left 0 _, max_le (by norm_num) (min_le_left 1 v)⟩

/-- Overwriting the value at one key keeps the key list. -/
lemma map_clamp_keys (p : List (String × Rat)) (t : String) (c : Rat) :
    (p.map (fun kw => if kw.1 = t then (kw.1, c) else kw)).map Prod.fst
      = p.map Prod.fst := by
  induction p with
  | nil => rfl
  | cons kw ps ih => by_cases hk : kw.1 = t <;> simp [hk, ih]

/-- One `set_personality` loop iteration keeps the key list. -/
lemma setTraitStep_keys (p : List (String × Rat)) (tv : String × Rat) :
    (setTraitStep p tv).map Prod.fst = p.map Prod.fst := by
  unfold setTraitStep
  split_ifs with h
  · exact map_clamp_keys p tv.1 _
  · rfl

/-- One `set_personality` loop iteration keeps all values in [0,1]. -/
lemma setTraitStep_values (p : List (String × Rat)) (tv : String × Rat)
    (hp : ∀ kv ∈ p, 0 ≤ kv.2 ∧ kv.2 ≤ 1) :
    ∀ kv ∈ setTraitStep p tv, 0 ≤ kv.2 ∧ kv.2 ≤ 1 := by
  unfold setTraitStep
  split_ifs with h
  · intro kv hkv
    rcases List.mem_map.mp hkv with ⟨kw, hkw, heq⟩
    by_cases hk : kw.1 = tv.1
    · rw [if_pos hk] at heq
      rw [← heq]
      exact clamp01_bounds tv.2
    · rw [if_neg hk] at heq
      rw [← heq]
      exact hp kw hkw
  · exact hp

/-- A whole `set_personality` call keeps the key list. -/
lemma set_personality_keys (ts : List (String × Rat))
    (p : List (String × Rat)) :
    (set_personality p ts).map Prod.fst = p.map Prod.fst := by
  unfold set_personality
  induction ts generalizing p with
  | nil => rfl
  | cons tv ts ih => rw [List.foldl_cons, ih, setTraitStep_keys]

/-- A whole `set_personality` call keeps all values in [0,1]. -/
lemma set_personality_values (ts : List (String × Rat))
    (p : List (String × Rat)) (hp : ∀ kv ∈ p, 0 ≤ kv.2 ∧ kv.2 ≤ 1) :
    ∀ kv ∈ set_personality p ts, 0 ≤ kv.2 ∧ kv.2 ≤ 1 := by
  unfold set_personality
  induction ts generalizing p with
  | nil => exact hp
  | cons tv ts ih =>
    rw [List.foldl_cons]
    exact ih _ (setTraitStep_values p tv hp)

/-- Iterated `set_personality` calls keep all values in [0,1]. -/
lemma foldl_set_personality_values (calls : List (List (String × Rat)))
    (p : List (String × Rat)) (hp : ∀ kv ∈ p, 0 ≤ kv.2 ∧ kv.2 ≤ 1) :
    ∀ kv ∈ calls.foldl set_personality p, 0 ≤ kv.2 ∧ kv.2 ≤ 1 := by
  induction calls generalizing p with
  | nil => exact hp
  | cons ts calls ih =>
    rw [List.foldl_cons]
    exact ih _ (set_personality_values ts p hp)

/-- Iterated `set_personality` calls keep the key list. -/
lemma foldl_set_personality_keys (calls : List (List (String × Rat)))
    (p : List (String × Rat)) :
    (calls.foldl set_personality p).map Prod.fst = p.map Prod.fst := by
  induction calls generalizing p with
  | nil => rfl
  | cons ts calls ih =>
    rw [List.foldl_cons, ih, set_personality_keys]

/-- Looking up the overwritten key finds the clamped value. -/
lemma lookup_map_clamp (p : List (String × Rat)) (t : String) (c : Rat)
    (hp : (p.lookup t).isSome = true) :
    (p.map (fun kw => if kw.1 = t then (kw.1, c) else kw)).lookup t
      = some c := by
  induction p with
  | nil => cases hp
  | cons kw ps ih =>
    simp only [List.map_cons]
    by_cases hk : kw.1 = t
    · rw [if_pos hk]
      have hbeq : (t == kw.1) = true := beq_iff_eq.mpr hk.symm
      simp [List.lookup, hbeq]
    · rw [if_neg hk]
      have hbeq : (t == kw.1) = false :=
        beq_eq_false_iff_ne.mpr (fun hh => hk hh.symm)
      simp only [List.lookup, hbeq] at hp ⊢
      exact ih hp

/-- C9: after any sequence of `set_personality` calls starting from the
initial profile, every stored trait value lies in [0,1] and the stored key
set is still exactly the five known traits (unknown keys are never added);
moreover a single call clamps a known trait's value to [0,1] before storing
it and leaves the profile unchanged for an unknown trait name. -/
theorem set_personality_invariant (calls : List (List (String × Rat))) :
    (∀ kv ∈ calls.foldl set_personality initialPersonality,
      0 ≤ kv.2 ∧ kv.2 ≤ 1) ∧
    (calls.foldl set_personality initialPersonality).map Prod.fst
      = initialPersonality.map Prod.fst ∧
    (∀ (p : List (String × Rat)) (t : String) (v : Rat),
      (p.lookup t).isSome = true →
        (set_personality p [(t, v)]).lookup t = some (max 0 (min 1 v))) ∧
    (∀ (p : List (String × Rat)) (t : String) (v : Rat),
      (p.lookup t).isSome = false → set_personality p [(t, v)] = p) := by
  have hinit : ∀ kv ∈ initialPersonality, 0 ≤ kv.2 ∧ kv.2 ≤ 1 := by
    intro kv hkv
    simp only [initialPersonality, List.mem_cons, List.mem_singleton] at hkv
    rcases hkv with rfl | rfl | rfl | rfl | rfl | h
    · exact ⟨by norm_num, by norm_num⟩
    · exact ⟨by norm_num, by norm_num⟩
    · exact ⟨by norm_num, by norm_num⟩
    · exact ⟨by norm_num, by norm_num⟩
    · exact ⟨by norm_num, by norm_num⟩
    · cases h
  refine ⟨foldl_set_personality_values calls initialPersonality hinit,
    foldl_set_personality_keys calls initialPersonality, ?_, ?_⟩
  · intro p t v hp
    show (setTraitStep p (t, v)).lookup t = some (max 0 (min 1 v))
    unfold setTraitStep
    rw [if_pos hp]
    exact lookup_map_clamp p t _ hp
  · intro p t v hp
    show setTraitStep p (t, v) = p
    unfold setTraitStep
    rw [if_neg (by simp [hp])]

/-- Witness for C9 at a concrete input: setting aggression to 5 stores the
clamped value 1, and an unknown trait name leaves the profile unchanged. -/
theorem set_personality_invariant_witness :
    (set_personality initialPersonality [("aggression", 5)]).lookup "aggression"
      = some 1 ∧
    set_personality initialPersonality [("bravado", 5)] = initialPersonality :=
  have h := set_personality_invariant []
  ⟨(h.2.2.1 initialPersonality "aggression" 5 (by decide)).trans (by norm_num),
   h.2.2.2 initialPersonality "bravado" 5 (by decide)⟩

end ChessBot
